import Mathlib

/-
Verification of the PQC_grafana hybrid-encryption benchmark.

The development shallowly embeds the three Go programs of the repository:
the benchmark client (the tick loop of `main`, `fetchPublicKey`,
`fetchMLKEMPublicKey`, `encryptAES`, `encryptRSA`, `encryptMLKEM`), the
RSA key server's `getPublicKeyHandler`, and the ML-KEM key server's
`getPublicKeyHandler`.

Modelling conventions:
- bytes are `ℕ` (values < 256 where it matters), byte slices are `List ℕ`;
- Go `float64` durations and gauge values are modelled as exact rationals `ℚ`;
- external effects (HTTP transport, entropy, the AES block permutation,
  `x509.ParsePKIXPublicKey`, kyber768 unmarshalling, `rsa.EncryptOAEP`,
  kyber768 `Encapsulate`) enter the model as explicit inputs, so a tick is
  a pure function of the prior state and those inputs;
- fallible Go code returns `Option`/`Except`.
-/

/-! ## Base64 (Go `encoding/base64`, `StdEncoding`)

The standard alphabet and padded encoding/decoding used by both servers
(`base64.StdEncoding.EncodeToString`) and by the client
(`base64.StdEncoding.DecodeString`).  Go's decoder ignores `\r` and `\n`
and rejects any other character outside the alphabet, as well as inputs
whose (filtered) length is not a multiple of four. -/

/-- The 64 characters of the standard base64 alphabet. -/
def stdB64Alphabet : List Char :=
  "ABCDEFGHIJKLMNOPQRSTUVWXYZabcdefghijklmnopqrstuvwxyz0123456789+/".data

/-- The alphabet character for a 6-bit value. -/
def b64Char (n : ℕ) : Char := stdB64Alphabet.getD n 'A'

/-- Decode one alphabet character; `none` for characters outside the alphabet. -/
def b64Val (c : Char) : Option ℕ :=
  if stdB64Alphabet.indexOf c < 64 then some (stdB64Alphabet.indexOf c) else none

/-- Base64-encode a byte list, three input bytes to four output characters,
with `=` padding exactly as Go's `StdEncoding.EncodeToString`. -/
def base64Encode : List ℕ → List Char
  | [] => []
  | [a] => [b64Char (a / 4), b64Char (a % 4 * 16), '=', '=']
  | [a, b] => [b64Char (a / 4), b64Char (a % 4 * 16 + b / 16), b64Char (b % 16 * 4), '=']
  | a :: b :: c :: rest =>
    b64Char (a / 4) :: b64Char (a % 4 * 16 + b / 16) :: b64Char (b % 16 * 4 + c / 64) ::
      b64Char (c % 64) :: base64Encode rest

/-- Decode base64 text four characters at a time; `none` on any malformed
quantum (bad character, misplaced padding, trailing garbage, or length not a
multiple of four). -/
def base64DecodeQuantums : List Char → Option (List ℕ)
  | [] => some []
  | c1 :: c2 :: c3 :: c4 :: rest =>
    match b64Val c1, b64Val c2 with
    | some v1, some v2 =>
      if c3 = '=' then
        if c4 = '=' ∧ rest = [] then some [v1 * 4 + v2 / 16] else none
      else
        match b64Val c3 with
        | some v3 =>
          if c4 = '=' then
            if rest = [] then some [v1 * 4 + v2 / 16, v2 % 16 * 16 + v3 / 4] else none
          else
            match b64Val c4 with
            | some v4 =>
              (base64DecodeQuantums rest).map
                (fun t => (v1 * 4 + v2 / 16) :: (v2 % 16 * 16 + v3 / 4) :: (v3 % 4 * 64 + v4) :: t)
            | none => none
        | none => none
    | _, _ => none
  | _ => none

/-- Go's `StdEncoding.DecodeString`: ignore CR/LF, then decode in quantums. -/
def base64Decode (s : List Char) : Option (List ℕ) :=
  base64DecodeQuantums (s.filter fun c => !(c == '\n' || c == '\r'))

/-! ## AES-256-CBC with PKCS-style padding (client `encryptAES`)

`aes.BlockSize = 16`.  The AES block permutation itself is external
(`crypto/aes`), so it enters the model as an explicit function from the key
and a 16-byte block to a 16-byte block.  `aes.NewCipher` fails exactly when
the key length is not 16, 24 or 32 bytes. -/

/-- Padding as in `encryptAES`: `padding := aes.BlockSize - len(plaintext)%aes.BlockSize`
followed by `bytes.Repeat([]byte{byte(padding)}, padding)` appended to the
plaintext.  `byte(padding)` is the value reduced mod 256. -/
def pad16 (plaintext : List ℕ) : List ℕ :=
  let padding := 16 - plaintext.length % 16
  plaintext ++ List.replicate padding (padding % 256)

/-- Modelled from the spec: stripping the deterministic PKCS-style padding
(the repository contains no decryption code).  Reads the final byte as the
padding length and removes that many bytes; fails when the byte is not a
plausible padding length. -/
def unpad16 (l : List ℕ) : Option (List ℕ) :=
  match l.getLast? with
  | none => none
  | some p => if 1 ≤ p ∧ p ≤ 16 ∧ p ≤ l.length then some (l.take (l.length - p)) else none

/-- Split a byte list into 16-byte blocks (fuel-driven so that it reduces
in the kernel; the fuel is the list length, which always suffices). -/
def toBlocks16Aux : ℕ → List ℕ → List (List ℕ)
  | 0, _ => []
  | _ + 1, [] => []
  | fuel + 1, l => l.take 16 :: toBlocks16Aux fuel (l.drop 16)

/-- Split a byte list into 16-byte blocks (the last block may be shorter). -/
def toBlocks16 (l : List ℕ) : List (List ℕ) := toBlocks16Aux l.length l

/-- Bytewise XOR of two equal-length byte lists. -/
def xorBytes (a b : List ℕ) : List ℕ := List.zipWith (fun x y => x ^^^ y) a b

/-- CBC encryption over a list of blocks: each plaintext block is XORed with
the previous ciphertext block (initially the IV) and then sent through the
block permutation, as `cipher.NewCBCEncrypter(block, iv).CryptBlocks`. -/
def cbcEncryptBlocks (enc : List ℕ → List ℕ) : List ℕ → List (List ℕ) → List (List ℕ)
  | _, [] => []
  | prev, b :: bs => enc (xorBytes prev b) :: cbcEncryptBlocks enc (enc (xorBytes prev b)) bs

/-- Modelled from the spec: CBC decryption with the same key and IV (the
repository contains no decryption code).  Each ciphertext block is sent
through the inverse block permutation and XORed with the previous
ciphertext block (initially the IV). -/
def cbcDecryptBlocks (dec : List ℕ → List ℕ) : List ℕ → List (List ℕ) → List (List ℕ)
  | _, [] => []
  | prev, c :: cs => xorBytes prev (dec c) :: cbcDecryptBlocks dec c cs

/-- The client's `encryptAES` (part_000 lines 377-402): create the cipher
(fails unless the key is 16/24/32 bytes), append PKCS-style padding, draw a
16-byte IV from the entropy source (`none` models `io.ReadFull` failing),
CBC-encrypt, and return the ciphertext together with the IV. -/
def encryptAES (aesCipher : List ℕ → List ℕ → List ℕ) (ivRandom : Option (List ℕ))
    (plaintext key : List ℕ) : Option (List ℕ × List ℕ) :=
  if key.length = 16 ∨ key.length = 24 ∨ key.length = 32 then
    let padded := pad16 plaintext
    match ivRandom with
    | none => none
    | some iv => some ((cbcEncryptBlocks (aesCipher key) iv (toBlocks16 padded)).flatten, iv)
  else none

/-- Modelled from the spec: the decryption matching `encryptAES` — CBC-decrypt
with the same key and IV, then strip the padding. -/
def decryptAES (aesCipherInv : List ℕ → List ℕ → List ℕ) (ciphertext iv key : List ℕ) :
    Option (List ℕ) :=
  unpad16 ((cbcDecryptBlocks (aesCipherInv key) iv (toBlocks16 ciphertext)).flatten)

/-! ## RSA-OAEP wrap and ML-KEM encapsulation (client `encryptRSA`, `encryptMLKEM`) -/

/-- `rsa.PublicKey`: a modulus `N` and an exponent `E`. -/
structure RSAPublicKey where
  n : ℕ
  e : ℤ
deriving DecidableEq

/-- Result of `x509.ParsePKIXPublicKey`: an RSA key or key material of some
other algorithm (on which the client's type assertion to `*rsa.PublicKey`
fails). -/
inductive PKIXParsedKey where
  | rsa (key : RSAPublicKey)
  | otherAlgorithm
deriving DecidableEq

/-- A kyber768 public key is carried as its byte content. -/
abbrev Kyber768PublicKey := List ℕ

/-- Result of `kyber768.Scheme().UnmarshalBinaryPublicKey`: a kyber768 key or
key material of some other scheme (on which the client's type assertion to
`*kyber768.PublicKey` fails). -/
inductive KEMParsedKey where
  | kyber768Key (key : Kyber768PublicKey)
  | otherScheme
deriving DecidableEq

/-- The client's `encryptRSA` (part_000 lines 404-412): `rsa.EncryptOAEP`
with SHA-256 over the randomness source, applied to the data.  The OAEP
primitive is external and enters as the function `oaep`. -/
def encryptRSA (oaep : RSAPublicKey → List ℕ → Option (List ℕ))
    (publicKey : RSAPublicKey) (data : List ℕ) : Option (List ℕ) :=
  oaep publicKey data

/-- The client's `encryptMLKEM` (part_000 lines 414-425):
`kyber768.Scheme().Encapsulate(publicKey)` produces the encapsulated
ciphertext and the shared secret; the `data` argument (the AES key) is not
used.  The encapsulation primitive is external and enters as the function
`encaps`, which models one fixed draw of the randomness stream. -/
def encryptMLKEM (encaps : Kyber768PublicKey → Option (List ℕ × List ℕ))
    (publicKey : Kyber768PublicKey) (data : List ℕ) : Option (List ℕ × List ℕ) :=
  encaps publicKey

/-! ## Public-key fetching (client `fetchPublicKey`, `fetchMLKEMPublicKey`)

An HTTP exchange is modelled by its observable result: `none` for a
transport failure of `http.Get`, otherwise a status code and the result of
JSON-decoding the body into the expected response structure (`none` for a
body that does not decode). -/

/-- The client's `PublicKeyResponse` (part_000 lines 153-156). -/
structure ClientRSAKeyResponse where
  publicKey : List Char
  keySize : ℤ
deriving DecidableEq

/-- The client's anonymous ML-KEM response structure (part_000 lines 347-351). -/
structure ClientMLKEMKeyResponse where
  publicKey : List Char
  algorithm : List Char
  keySize : ℤ
deriving DecidableEq

/-- Observable result of `http.Get` against the RSA server. -/
structure RSAHttpResponse where
  status : ℕ
  body : Option ClientRSAKeyResponse
deriving DecidableEq

/-- Observable result of `http.Get` against the ML-KEM server. -/
structure MLKEMHttpResponse where
  status : ℕ
  body : Option ClientMLKEMKeyResponse
deriving DecidableEq

/-- The distinct failure exits of the two fetch functions, in source order. -/
inductive FetchError where
  | httpGet
  | httpStatus (code : ℕ)
  | jsonDecodeFailed
  | base64DecodeFailed
  | keyParseFailed
  | keyCastFailed
deriving DecidableEq

/-- The client's `fetchPublicKey` (part_000 lines 298-333): transport, status
check against 200, JSON decoding, base64 decoding, `x509.ParsePKIXPublicKey`
(external, the function `parsePKIX`), and the type assertion to
`*rsa.PublicKey`.  On success it returns the parsed key and the decoded
key bytes. -/
def fetchPublicKey (parsePKIX : List ℕ → Option PKIXParsedKey)
    (response : Option RSAHttpResponse) : Except FetchError (RSAPublicKey × List ℕ) :=
  match response with
  | none => .error .httpGet
  | some resp =>
    if resp.status ≠ 200 then .error (.httpStatus resp.status)
    else
      match resp.body with
      | none => .error .jsonDecodeFailed
      | some pubKeyResp =>
        match base64Decode pubKeyResp.publicKey with
        | none => .error .base64DecodeFailed
        | some pubKeyBytes =>
          match parsePKIX pubKeyBytes with
          | none => .error .keyParseFailed
          | some (.rsa publicKey) => .ok (publicKey, pubKeyBytes)
          | some .otherAlgorithm => .error .keyCastFailed

/-- The client's `fetchMLKEMPublicKey` (part_000 lines 335-375): transport,
status check against 200, JSON decoding, base64 decoding,
`UnmarshalBinaryPublicKey` (external, the function `unmarshalKEM`), and the
type assertion to `*kyber768.PublicKey`. -/
def fetchMLKEMPublicKey (unmarshalKEM : List ℕ → Option KEMParsedKey)
    (response : Option MLKEMHttpResponse) : Except FetchError (Kyber768PublicKey × List ℕ) :=
  match response with
  | none => .error .httpGet
  | some resp =>
    if resp.status ≠ 200 then .error (.httpStatus resp.status)
    else
      match resp.body with
      | none => .error .jsonDecodeFailed
      | some pubKeyResp =>
        match base64Decode pubKeyResp.publicKey with
        | none => .error .base64DecodeFailed
        | some pubKeyBytes =>
          match unmarshalKEM pubKeyBytes with
          | none => .error .keyParseFailed
          | some (.kyber768Key publicKey) => .ok (publicKey, pubKeyBytes)
          | some .otherScheme => .error .keyCastFailed

/-! ## The two key servers' `getPublicKeyHandler`

Key generation and marshalling are external (`rsa.GenerateKey` +
`x509.MarshalPKIXPublicKey`, resp. `kyber768.GenerateKeyPair` +
`MarshalBinary`); each handler is modelled as a function of the marshalled
public-key bytes, with `none` standing for a failure of either step (both
are answered with HTTP 500).  A non-GET method is answered with 405. -/

/-- The RSA server's `PublicKeyResponse` (rsa-benchmark/main.go lines 57-61). -/
structure RSAServerKeyResponse where
  publicKey : List Char
  keySize : ℤ
deriving DecidableEq

/-- The ML-KEM server's `PublicKeyResponse` (part_001 lines 49-54). -/
structure MLKEMServerKeyResponse where
  publicKey : List Char
  algorithm : List Char
  keySize : ℤ
deriving DecidableEq

/-- The RSA server's `getPublicKeyHandler` (rsa-benchmark/main.go lines
120-164): it base64-encodes the marshalled key and declares `KeySize: 2048`
— the modulus bit-length constant, not a byte count. -/
def rsaGetPublicKeyHandler (method : List Char) (marshalledKey : Option (List ℕ)) :
    Except ℕ RSAServerKeyResponse :=
  if method ≠ "GET".data then .error 405
  else
    match marshalledKey with
    | none => .error 500
    | some pubKeyBytes =>
      .ok { publicKey := base64Encode pubKeyBytes, keySize := 2048 }

/-- The ML-KEM server's `getPublicKeyHandler` (part_001 lines 115-160): it
base64-encodes the marshalled key and declares `KeySize: len(pubKeyBytes)`. -/
def mlkemGetPublicKeyHandler (method : List Char) (marshalledKey : Option (List ℕ)) :
    Except ℕ MLKEMServerKeyResponse :=
  if method ≠ "GET".data then .error 405
  else
    match marshalledKey with
    | none => .error 500
    | some pubKeyBytes =>
      .ok { publicKey := base64Encode pubKeyBytes,
            algorithm := "ML-KEM-768 (Kyber-768)".data,
            keySize := (pubKeyBytes.length : ℤ) }

/-! ## The benchmark client's tick loop (part_000 `main`, lines 190-288)

One iteration of `for range ticker.C` is a pure function of the state
carried across ticks (the loop counter, the cumulative aggregation
variables of lines 145-150, and the Prometheus metric values) and of the
tick's external inputs. -/

/-- Process-wide client state: the loop counter, the cumulative values
`rsaTotalDuration`, `mlkemTotalDuration`, `operationCount` (part_000 lines
145-150), and the current value of every Prometheus metric of part_000
lines 69-143 (gauges as rationals, the counter as a natural). -/
structure ClientState where
  counter : ℕ
  rsaTotalDuration : ℚ
  mlkemTotalDuration : ℚ
  operationCount : ℕ
  rsaEncryptedKeySize : ℚ
  mlkemEncryptedKeySize : ℚ
  rsaPublicKeySize : ℚ
  mlkemPublicKeySize : ℚ
  rsaEncryptionDuration : ℚ
  mlkemEncapsulationDuration : ℚ
  encryptionDurationRatio : ℚ
  encryptedKeySizeRatio : ℚ
  publicKeySizeRatio : ℚ
  rsaEncryptionDurationAvg : ℚ
  mlkemEncapsulationDurationAvg : ℚ
  encryptionOperationsTotal : ℕ
deriving DecidableEq

/-- Process start: counters at zero, every metric at its zero value. -/
def initialState : ClientState :=
  { counter := 0, rsaTotalDuration := 0, mlkemTotalDuration := 0, operationCount := 0,
    rsaEncryptedKeySize := 0, mlkemEncryptedKeySize := 0, rsaPublicKeySize := 0,
    mlkemPublicKeySize := 0, rsaEncryptionDuration := 0, mlkemEncapsulationDuration := 0,
    encryptionDurationRatio := 0, encryptedKeySizeRatio := 0, publicKeySizeRatio := 0,
    rsaEncryptionDurationAvg := 0, mlkemEncapsulationDurationAvg := 0,
    encryptionOperationsTotal := 0 }

/-- The UTF-8 bytes of the single message of the `messages` slice
(part_000 lines 186-188). -/
def tickMessage : List ℕ :=
  ("量子コンピュータに対抗するポスト量子暗号".toUTF8.toList.map fun b => b.toNat)

/-- The fixed message rotation set (a single message). -/
def messages : List (List ℕ) := [tickMessage]

/-- The external inputs consumed by one tick: the two HTTP exchanges, the
external cryptographic primitives, the entropy draws, and the two measured
wrap durations (`time.Since` readings, which are external clock values). -/
structure TickInputs where
  rsaHttp : Option RSAHttpResponse
  mlkemHttp : Option MLKEMHttpResponse
  parsePKIX : List ℕ → Option PKIXParsedKey
  unmarshalKEM : List ℕ → Option KEMParsedKey
  randAESKey : Option (List ℕ)
  randIV : Option (List ℕ)
  aesCipher : List ℕ → List ℕ → List ℕ
  oaep : RSAPublicKey → List ℕ → Option (List ℕ)
  encaps : Kyber768PublicKey → Option (List ℕ × List ℕ)
  rsaDur : ℚ
  mlkemDur : ℚ

/-- The metric recording performed at the end of a fully successful tick
(part_000 lines 240-277), written as one record update: the four per-tick
gauges set along the way, the cumulative updates of lines 256-263, and the
three ratio gauges of lines 265-277.  Each ratio `if` guards only its own
gauge, so the three sequential `if` statements are recorded as three
field-level conditionals. -/
def recordSuccess (s : ClientState) (inp : TickInputs)
    (rsaPubKeyBytes mlkemPubKeyBytes rsaEncryptedAESKey mlkemCiphertext : List ℕ) :
    ClientState :=
  { s with
    counter := s.counter + 1,
    encryptionOperationsTotal := s.encryptionOperationsTotal + 1,
    rsaPublicKeySize := (rsaPubKeyBytes.length : ℚ),
    mlkemPublicKeySize := (mlkemPubKeyBytes.length : ℚ),
    rsaEncryptedKeySize := (rsaEncryptedAESKey.length : ℚ),
    rsaEncryptionDuration := inp.rsaDur,
    mlkemEncryptedKeySize := (mlkemCiphertext.length : ℚ),
    mlkemEncapsulationDuration := inp.mlkemDur,
    operationCount := s.operationCount + 1,
    rsaTotalDuration := s.rsaTotalDuration + inp.rsaDur,
    mlkemTotalDuration := s.mlkemTotalDuration + inp.mlkemDur,
    rsaEncryptionDurationAvg :=
      (s.rsaTotalDuration + inp.rsaDur) / ((s.operationCount + 1 : ℕ) : ℚ),
    mlkemEncapsulationDurationAvg :=
      (s.mlkemTotalDuration + inp.mlkemDur) / ((s.operationCount + 1 : ℕ) : ℚ),
    encryptionDurationRatio :=
      if inp.rsaDur > 0 then inp.mlkemDur / inp.rsaDur else s.encryptionDurationRatio,
    encryptedKeySizeRatio :=
      if rsaEncryptedAESKey.length > 0 then
        (mlkemCiphertext.length : ℚ) / (rsaEncryptedAESKey.length : ℚ)
      else s.encryptedKeySizeRatio,
    publicKeySizeRatio :=
      if rsaPubKeyBytes.length > 0 then
        (mlkemPubKeyBytes.length : ℚ) / (rsaPubKeyBytes.length : ℚ)
      else s.publicKeySizeRatio }

/-- One tick of the benchmark loop (part_000 lines 190-288).  The counter
and the attempts counter are bumped before the first fallible step; each
`continue` exit returns the state as updated so far; a fully successful
tick ends in `recordSuccess`. -/
def runTick (s : ClientState) (inp : TickInputs) : ClientState :=
  match fetchPublicKey inp.parsePKIX inp.rsaHttp with
  | .error _ =>
    { s with counter := s.counter + 1,
             encryptionOperationsTotal := s.encryptionOperationsTotal + 1 }
  | .ok (rsaPublicKey, rsaPubKeyBytes) =>
    match fetchMLKEMPublicKey inp.unmarshalKEM inp.mlkemHttp with
    | .error _ =>
      { s with counter := s.counter + 1,
               encryptionOperationsTotal := s.encryptionOperationsTotal + 1,
               rsaPublicKeySize := (rsaPubKeyBytes.length : ℚ) }
    | .ok (mlkemPublicKey, mlkemPubKeyBytes) =>
      match inp.randAESKey with
      | none =>
        { s with counter := s.counter + 1,
                 encryptionOperationsTotal := s.encryptionOperationsTotal + 1,
                 rsaPublicKeySize := (rsaPubKeyBytes.length : ℚ),
                 mlkemPublicKeySize := (mlkemPubKeyBytes.length : ℚ) }
      | some aesKey =>
        match encryptAES inp.aesCipher inp.randIV
            (messages.getD ((s.counter + 1) % messages.length) []) aesKey with
        | none =>
          { s with counter := s.counter + 1,
                   encryptionOperationsTotal := s.encryptionOperationsTotal + 1,
                   rsaPublicKeySize := (rsaPubKeyBytes.length : ℚ),
                   mlkemPublicKeySize := (mlkemPubKeyBytes.length : ℚ) }
        | some _ =>
          match encryptRSA inp.oaep rsaPublicKey aesKey with
          | none =>
            { s with counter := s.counter + 1,
                     encryptionOperationsTotal := s.encryptionOperationsTotal + 1,
                     rsaPublicKeySize := (rsaPubKeyBytes.length : ℚ),
                     mlkemPublicKeySize := (mlkemPubKeyBytes.length : ℚ) }
          | some rsaEncryptedAESKey =>
            match encryptMLKEM inp.encaps mlkemPublicKey aesKey with
            | none =>
              { s with counter := s.counter + 1,
                       encryptionOperationsTotal := s.encryptionOperationsTotal + 1,
                       rsaPublicKeySize := (rsaPubKeyBytes.length : ℚ),
                       mlkemPublicKeySize := (mlkemPubKeyBytes.length : ℚ),
                       rsaEncryptedKeySize := (rsaEncryptedAESKey.length : ℚ),
                       rsaEncryptionDuration := inp.rsaDur }
            | some (mlkemCiphertext, _) =>
              recordSuccess s inp rsaPubKeyBytes mlkemPubKeyBytes rsaEncryptedAESKey
                mlkemCiphertext

/-- Whether every step of a tick succeeds (the tick reaches the recording
of lines 256-277).  The scrutinees mirror `runTick` step by step. -/
def tickOk (inp : TickInputs) : Bool :=
  match fetchPublicKey inp.parsePKIX inp.rsaHttp with
  | .error _ => false
  | .ok (rsaPublicKey, _) =>
    match fetchMLKEMPublicKey inp.unmarshalKEM inp.mlkemHttp with
    | .error _ => false
    | .ok (mlkemPublicKey, _) =>
      match inp.randAESKey with
      | none => false
      | some aesKey =>
        match encryptAES inp.aesCipher inp.randIV tickMessage aesKey with
        | none => false
        | some _ =>
          match encryptRSA inp.oaep rsaPublicKey aesKey with
          | none => false
          | some _ =>
            match encryptMLKEM inp.encaps mlkemPublicKey aesKey with
            | none => false
            | some _ => true

/-- The benchmark loop: fold `runTick` over a sequence of tick inputs. -/
def runTicks (s : ClientState) (ticks : List TickInputs) : ClientState :=
  ticks.foldl runTick s

/-! ## Concrete tick inputs used to evaluate the model -/

/-- A well-formed RSA-server exchange carrying the 5-byte key material
`[1, 2, 3, 4, 5]`. -/
def sampleRsaResp : RSAHttpResponse :=
  { status := 200, body := some { publicKey := base64Encode [1, 2, 3, 4, 5], keySize := 2048 } }

/-- A well-formed ML-KEM-server exchange carrying the 2-byte key material
`[4, 5]`. -/
def sampleMlkemResp : MLKEMHttpResponse :=
  { status := 200,
    body := some { publicKey := base64Encode [4, 5], algorithm := [], keySize := 2 } }

/-- Inputs for a fully successful tick: both fetches succeed, entropy is
available, the external primitives succeed, the RSA wrap takes 0.1 s and
the ML-KEM wrap 0.002 s. -/
def sampleOkTick : TickInputs :=
  { rsaHttp := some sampleRsaResp,
    mlkemHttp := some sampleMlkemResp,
    parsePKIX := fun _ => some (.rsa { n := 15, e := 3 }),
    unmarshalKEM := fun bs => some (.kyber768Key bs),
    randAESKey := some (List.replicate 32 7),
    randIV := some (List.replicate 16 9),
    aesCipher := fun _ b => b,
    oaep := fun _ _ => some (List.replicate 270 1),
    encaps := fun _ => some (List.replicate 1088 2, List.replicate 32 3),
    rsaDur := 1 / 10,
    mlkemDur := 1 / 500 }

/-- Inputs for a tick whose RSA fetch succeeds (5 key bytes) but whose
ML-KEM fetch fails with a transport error. -/
def kemFetchFailTick : TickInputs :=
  { sampleOkTick with mlkemHttp := none }

/-- Inputs for a tick whose RSA-server response carries malformed base64. -/
def badBase64Tick : TickInputs :=
  { sampleOkTick with
    rsaHttp := some { status := 200, body := some { publicKey := "!!!!".data, keySize := 0 } } }

/-- Inputs for a successful tick in which every classical-side denominator
is zero: the RSA wrap duration is measured as 0, the RSA-wrapped key is
empty and the RSA public-key material is empty. -/
def zeroDenomTick : TickInputs :=
  { sampleOkTick with
    rsaHttp := some { status := 200, body := some { publicKey := [], keySize := 2048 } },
    oaep := fun _ _ => some [],
    rsaDur := 0 }

/-! ## Lemmas about base64 -/

/-- Alphabet characters decode back to their 6-bit value and are neither
padding nor CR/LF. -/
lemma b64Val_b64Char : ∀ n, n < 64 → b64Val (b64Char n) = some n := by decide

/-- Alphabet characters are not the padding character. -/
lemma b64Char_ne_pad : ∀ n, n < 64 → ¬ b64Char n = '=' := by decide

/-- Alphabet characters are not CR or LF. -/
lemma b64Char_not_crlf : ∀ n, n < 64 → (b64Char n == '\n' || b64Char n == '\r') = false := by
  decide

/-- Encoded text contains no CR/LF, so the decoder's filter keeps it intact. -/
lemma filter_base64Encode :
    ∀ (bs : List ℕ), (∀ x ∈ bs, x < 256) →
      ((base64Encode bs).filter fun c => !(c == '\n' || c == '\r')) = base64Encode bs
  | [], _ => rfl
  | [a], h => by
    have ha : a < 256 := h a (by simp)
    simp [base64Encode, List.filter,
      b64Char_not_crlf (a / 4) (by omega), b64Char_not_crlf (a % 4 * 16) (by omega)]
  | [a, b], h => by
    have ha : a < 256 := h a (by simp)
    have hb : b < 256 := h b (by simp)
    simp [base64Encode, List.filter, b64Char_not_crlf (a / 4) (by omega),
      b64Char_not_crlf (a % 4 * 16 + b / 16) (by omega),
      b64Char_not_crlf (b % 16 * 4) (by omega)]
  | a :: b :: c :: rest, h => by
    have ha : a < 256 := h a (by simp)
    have hb : b < 256 := h b (by simp)
    have hc : c < 256 := h c (by simp)
    have hrest := filter_base64Encode rest (fun x hx => h x (by simp [hx]))
    simp only [base64Encode, List.filter, b64Char_not_crlf (a / 4) (by omega),
      b64Char_not_crlf (a % 4 * 16 + b / 16) (by omega),
      b64Char_not_crlf (b % 16 * 4 + c / 64) (by omega),
      b64Char_not_crlf (c % 64) (by omega), Bool.not_false]
    rw [hrest]

/-- Decoding inverts encoding, quantum by quantum. -/
lemma base64DecodeQuantums_encode :
    ∀ (bs : List ℕ), (∀ x ∈ bs, x < 256) →
      base64DecodeQuantums (base64Encode bs) = some bs
  | [], _ => rfl
  | [a], h => by
    have ha : a < 256 := h a (by simp)
    simp only [base64Encode, base64DecodeQuantums,
      b64Val_b64Char (a / 4) (by omega), b64Val_b64Char (a % 4 * 16) (by omega)]
    simp
    omega
  | [a, b], h => by
    have ha : a < 256 := h a (by simp)
    have hb : b < 256 := h b (by simp)
    simp only [base64Encode, base64DecodeQuantums,
      b64Val_b64Char (a / 4) (by omega), b64Val_b64Char (a % 4 * 16 + b / 16) (by omega),
      b64Val_b64Char (b % 16 * 4) (by omega)]
    rw [if_neg (b64Char_ne_pad (b % 16 * 4) (by omega))]
    simp
    omega
  | a :: b :: c :: rest, h => by
    have ha : a < 256 := h a (by simp)
    have hb : b < 256 := h b (by simp)
    have hc : c < 256 := h c (by simp)
    have hrest := base64DecodeQuantums_encode rest (fun x hx => h x (by simp [hx]))
    simp only [base64Encode, base64DecodeQuantums,
      b64Val_b64Char (a / 4) (by omega), b64Val_b64Char (a % 4 * 16 + b / 16) (by omega),
      b64Val_b64Char (b % 16 * 4 + c / 64) (by omega), b64Val_b64Char (c % 64) (by omega)]
    rw [if_neg (b64Char_ne_pad (b % 16 * 4 + c / 64) (by omega)),
      if_neg (b64Char_ne_pad (c % 64) (by omega))]
    simp [hrest]
    omega

/-- Go's `StdEncoding`: decoding inverts encoding on byte lists. -/
theorem base64Decode_base64Encode (bs : List ℕ) (h : ∀ x ∈ bs, x < 256) :
    base64Decode (base64Encode bs) = some bs := by
  rw [base64Decode, filter_base64Encode bs h, base64DecodeQuantums_encode bs h]

/-! ## Lemmas about padding, 16-byte blocks and CBC -/

/-- Sufficient fuel makes the block splitter independent of the exact fuel. -/
lemma toBlocks16Aux_congr (f1 : ℕ) :
    ∀ (f2 : ℕ) (l : List ℕ), l.length ≤ f1 → l.length ≤ f2 →
      toBlocks16Aux f1 l = toBlocks16Aux f2 l := by
  induction f1 with
  | zero =>
    intro f2 l h1 _
    have hl : l = [] := List.eq_nil_of_length_eq_zero (Nat.le_zero.mp h1)
    subst hl
    cases f2 <;> rfl
  | succ n ih =>
    intro f2 l h1 h2
    cases l with
    | nil => cases f2 <;> rfl
    | cons x xs =>
      cases f2 with
      | zero => simp at h2
      | succ m =>
        simp only [List.length_cons] at h1 h2
        simp only [toBlocks16Aux]
        rw [ih m ((x :: xs).drop 16)
          (by simp only [List.length_drop, List.length_cons]; omega)
          (by simp only [List.length_drop, List.length_cons]; omega)]

/-- Splitting after prepending one full block prepends that block. -/
lemma toBlocks16_cons16 (a b : List ℕ) (ha : a.length = 16) :
    toBlocks16 (a ++ b) = a :: toBlocks16 b := by
  match a, ha with
  | x :: xs, ha =>
    rw [toBlocks16, toBlocks16]
    have hlen : (x :: xs ++ b).length = (15 + b.length) + 1 := by
      simp only [List.length_append, List.length_cons] at ha ⊢
      omega
    rw [hlen]
    simp only [List.cons_append, toBlocks16Aux]
    show List.take 16 ((x :: xs) ++ b) :: toBlocks16Aux (15 + b.length)
        (List.drop 16 ((x :: xs) ++ b)) = (x :: xs) :: toBlocks16Aux b.length b
    rw [List.take_left' ha, List.drop_left' ha]
    rw [toBlocks16Aux_congr (15 + b.length) b.length b (by omega) (by omega)]

/-- Splitting the concatenation of 16-byte blocks recovers the blocks. -/
lemma toBlocks16_flatten (bs : List (List ℕ)) (h : ∀ b ∈ bs, b.length = 16) :
    toBlocks16 bs.flatten = bs := by
  induction bs with
  | nil => rfl
  | cons b rest ih =>
    rw [List.flatten_cons, toBlocks16_cons16 b rest.flatten (h b (by simp))]
    rw [ih (fun x hx => h x (by simp [hx]))]

/-- Concatenating the blocks of a list recovers the list (any fuel ≥ length). -/
lemma flatten_toBlocks16Aux (f : ℕ) :
    ∀ (l : List ℕ), l.length ≤ f → (toBlocks16Aux f l).flatten = l := by
  induction f with
  | zero =>
    intro l h1
    have hl : l = [] := List.eq_nil_of_length_eq_zero (Nat.le_zero.mp h1)
    subst hl
    rfl
  | succ n ih =>
    intro l h1
    cases l with
    | nil => rfl
    | cons x xs =>
      simp only [List.length_cons] at h1
      simp only [toBlocks16Aux, List.flatten_cons]
      rw [ih ((x :: xs).drop 16)
        (by simp only [List.length_drop, List.length_cons]; omega), List.take_append_drop]

/-- Concatenating the blocks of a list recovers the list. -/
lemma flatten_toBlocks16 (l : List ℕ) : (toBlocks16 l).flatten = l :=
  flatten_toBlocks16Aux l.length l le_rfl

/-- When the length is a multiple of 16, every block has exactly 16 bytes. -/
lemma toBlocks16Aux_block_length (f : ℕ) :
    ∀ (l : List ℕ), l.length ≤ f → l.length % 16 = 0 →
      ∀ b ∈ toBlocks16Aux f l, b.length = 16 := by
  induction f with
  | zero =>
    intro l h1 _ b hb
    have hl : l = [] := List.eq_nil_of_length_eq_zero (Nat.le_zero.mp h1)
    subst hl
    simp [toBlocks16Aux] at hb
  | succ n ih =>
    intro l h1 h16 b hb
    cases l with
    | nil => simp [toBlocks16Aux] at hb
    | cons x xs =>
      simp only [List.length_cons] at h1 h16
      simp only [toBlocks16Aux, List.mem_cons] at hb
      rcases hb with hb | hb
      · subst hb
        simp only [List.length_take, List.length_cons]
        omega
      · exact ih ((x :: xs).drop 16)
          (by simp only [List.length_drop, List.length_cons]; omega)
          (by simp only [List.length_drop, List.length_cons]; omega) b hb

/-- When the length is a multiple of 16, every block has exactly 16 bytes. -/
lemma toBlocks16_block_length (l : List ℕ) (h16 : l.length % 16 = 0) :
    ∀ b ∈ toBlocks16 l, b.length = 16 :=
  toBlocks16Aux_block_length l.length l le_rfl h16

/-- The padded plaintext, written with the padding value in the clear
(`byte(padding)` does not truncate because the padding is at most 16). -/
lemma pad16_eq (m : List ℕ) :
    pad16 m = m ++ List.replicate (16 - m.length % 16) (16 - m.length % 16) := by
  have : (16 - m.length % 16) % 256 = 16 - m.length % 16 := by omega
  rw [pad16, this]

/-- Length of the padded plaintext. -/
lemma pad16_length (m : List ℕ) : (pad16 m).length = m.length + (16 - m.length % 16) := by
  rw [pad16_eq]
  simp

/-- The padded plaintext's length is a multiple of the block size. -/
lemma pad16_length_mod (m : List ℕ) : (pad16 m).length % 16 = 0 := by
  rw [pad16_length]
  omega

/-- The last element of a nonempty replicate. -/
lemma getLast?_replicate_succ (n : ℕ) (x : ℕ) :
    (List.replicate (n + 1) x).getLast? = some x := by
  induction n with
  | zero => rfl
  | succ k ih => rw [List.replicate_succ, List.getLast?_cons, ih]; rfl

/-- The last element of a positive-length replicate. -/
lemma getLast?_replicate_pos (n x : ℕ) (h : 0 < n) :
    (List.replicate n x).getLast? = some x := by
  cases n with
  | zero => omega
  | succ k => exact getLast?_replicate_succ k x

/-- Stripping the padding recovers the plaintext. -/
lemma unpad16_pad16 (m : List ℕ) : unpad16 (pad16 m) = some m := by
  have hlast : (pad16 m).getLast? = some (16 - m.length % 16) := by
    rw [pad16_eq]
    rw [List.getLast?_append_of_ne_nil m (by simp; omega)]
    exact getLast?_replicate_pos _ _ (by omega)
  simp only [unpad16, hlast]
  rw [if_pos (by refine ⟨by omega, by omega, ?_⟩; rw [pad16_length]; omega)]
  have hlen : (pad16 m).length - (16 - m.length % 16) = m.length := by
    rw [pad16_length]
    omega
  rw [hlen, pad16_eq, List.take_left' rfl]

/-- XOR with the same mask twice is the identity on equal-length lists. -/
lemma xorBytes_xorBytes (p : List ℕ) :
    ∀ (b : List ℕ), p.length = b.length → xorBytes p (xorBytes p b) = b := by
  induction p with
  | nil =>
    intro b hb
    cases b with
    | nil => rfl
    | cons y ys => simp at hb
  | cons x xs ih =>
    intro b hb
    cases b with
    | nil => simp at hb
    | cons y ys =>
      have hlen : xs.length = ys.length := by simpa using hb
      have h2 := ih ys hlen
      simp only [xorBytes, List.zipWith_cons_cons]
      simp only [xorBytes] at h2
      rw [Nat.xor_cancel_left, h2]

/-- Length of a bytewise XOR. -/
lemma xorBytes_length (a b : List ℕ) : (xorBytes a b).length = min a.length b.length := by
  simp [xorBytes]

/-- CBC encryption with a length-preserving block permutation produces
one 16-byte ciphertext block per plaintext block. -/
lemma cbcEncryptBlocks_blocks (enc : List ℕ → List ℕ)
    (hE : ∀ b, b.length = 16 → (enc b).length = 16) :
    ∀ (bs : List (List ℕ)) (prev : List ℕ), prev.length = 16 →
      (∀ b ∈ bs, b.length = 16) →
      (∀ c ∈ cbcEncryptBlocks enc prev bs, c.length = 16) ∧
        (cbcEncryptBlocks enc prev bs).length = bs.length := by
  intro bs
  induction bs with
  | nil => intro prev _ _; exact ⟨by simp [cbcEncryptBlocks], rfl⟩
  | cons b rest ih =>
    intro prev hprev hbs
    have hxor : (xorBytes prev b).length = 16 := by
      rw [xorBytes_length, hprev, hbs b (by simp)]
      simp
    have henc : (enc (xorBytes prev b)).length = 16 := hE _ hxor
    have hrest := ih (enc (xorBytes prev b)) henc (fun x hx => hbs x (by simp [hx]))
    constructor
    · intro c hc
      simp only [cbcEncryptBlocks, List.mem_cons] at hc
      rcases hc with hc | hc
      · subst hc; exact henc
      · exact hrest.1 c hc
    · simp only [cbcEncryptBlocks, List.length_cons, hrest.2]

/-- CBC decryption with the inverse permutation undoes CBC encryption. -/
lemma cbcDecryptBlocks_cbcEncryptBlocks (enc dec : List ℕ → List ℕ)
    (hE : ∀ b, b.length = 16 → (enc b).length = 16)
    (hDE : ∀ b, b.length = 16 → dec (enc b) = b) :
    ∀ (bs : List (List ℕ)) (prev : List ℕ), prev.length = 16 →
      (∀ b ∈ bs, b.length = 16) →
      cbcDecryptBlocks dec prev (cbcEncryptBlocks enc prev bs) = bs := by
  intro bs
  induction bs with
  | nil => intro prev _ _; rfl
  | cons b rest ih =>
    intro prev hprev hbs
    have hxor : (xorBytes prev b).length = 16 := by
      rw [xorBytes_length, hprev, hbs b (by simp)]
      simp
    simp only [cbcEncryptBlocks, cbcDecryptBlocks]
    rw [hDE _ hxor, xorBytes_xorBytes prev b (by rw [hprev, hbs b (by simp)])]
    rw [ih (enc (xorBytes prev b)) (hE _ hxor) (fun x hx => hbs x (by simp [hx]))]

/-- Total byte length of a list of 16-byte blocks. -/
lemma flatten_length_of_blocks (bs : List (List ℕ)) (h : ∀ b ∈ bs, b.length = 16) :
    bs.flatten.length = 16 * bs.length := by
  induction bs with
  | nil => rfl
  | cons b rest ih =>
    simp only [List.flatten_cons, List.length_append, List.length_cons,
      h b (by simp), ih (fun x hx => h x (by simp [hx]))]
    ring

/-! ## Lemmas about the benchmark tick -/

/-- The rotating message selection always picks the single fixed message. -/
lemma message_selected (k : ℕ) : messages.getD (k % messages.length) [] = tickMessage := by
  simp [messages, Nat.mod_one]

/-- A fully successful tick ends in `recordSuccess` on the values produced
along the way. -/
lemma runTick_ok_spec (s : ClientState) (inp : TickInputs)
    (rsaKey : RSAPublicKey) (rsaBytes kemKey kemBytes aesKey : List ℕ)
    (encOut : List ℕ × List ℕ) (rsaCt kemCt sharedSecret : List ℕ)
    (hfRSA : fetchPublicKey inp.parsePKIX inp.rsaHttp = .ok (rsaKey, rsaBytes))
    (hfKEM : fetchMLKEMPublicKey inp.unmarshalKEM inp.mlkemHttp = .ok (kemKey, kemBytes))
    (hkey : inp.randAESKey = some aesKey)
    (henc : encryptAES inp.aesCipher inp.randIV tickMessage aesKey = some encOut)
    (hoaep : encryptRSA inp.oaep rsaKey aesKey = some rsaCt)
    (hencaps : encryptMLKEM inp.encaps kemKey aesKey = some (kemCt, sharedSecret)) :
    runTick s inp = recordSuccess s inp rsaBytes kemBytes rsaCt kemCt := by
  simp only [runTick, message_selected, hfRSA, hfKEM, hkey, henc, hoaep, hencaps]

/-- A tick in which some step fails leaves the cumulative statistics, the
averages and the three ratio gauges untouched. -/
lemma runTick_fail_frame (s : ClientState) (inp : TickInputs) (h : tickOk inp = false) :
    (runTick s inp).operationCount = s.operationCount ∧
    (runTick s inp).rsaTotalDuration = s.rsaTotalDuration ∧
    (runTick s inp).mlkemTotalDuration = s.mlkemTotalDuration ∧
    (runTick s inp).rsaEncryptionDurationAvg = s.rsaEncryptionDurationAvg ∧
    (runTick s inp).mlkemEncapsulationDurationAvg = s.mlkemEncapsulationDurationAvg ∧
    (runTick s inp).encryptionDurationRatio = s.encryptionDurationRatio ∧
    (runTick s inp).encryptedKeySizeRatio = s.encryptedKeySizeRatio ∧
    (runTick s inp).publicKeySizeRatio = s.publicKeySizeRatio := by
  rw [tickOk] at h
  cases hfRSA : fetchPublicKey inp.parsePKIX inp.rsaHttp with
  | error e =>
    simp only [runTick, message_selected, hfRSA]
    exact ⟨trivial, trivial, trivial, trivial, trivial, trivial, trivial, trivial⟩
  | ok v =>
    obtain ⟨rsaKey, rsaBytes⟩ := v
    simp only [hfRSA] at h
    cases hfKEM : fetchMLKEMPublicKey inp.unmarshalKEM inp.mlkemHttp with
    | error e =>
      simp only [runTick, message_selected, hfRSA, hfKEM]
      exact ⟨trivial, trivial, trivial, trivial, trivial, trivial, trivial, trivial⟩
    | ok w =>
      obtain ⟨kemKey, kemBytes⟩ := w
      simp only [hfKEM] at h
      cases hkey : inp.randAESKey with
      | none =>
        simp only [runTick, message_selected, hfRSA, hfKEM, hkey]
        exact ⟨trivial, trivial, trivial, trivial, trivial, trivial, trivial, trivial⟩
      | some aesKey =>
        simp only [hkey] at h
        cases henc : encryptAES inp.aesCipher inp.randIV tickMessage aesKey with
        | none =>
          simp only [runTick, message_selected, hfRSA, hfKEM, hkey, henc]
          exact ⟨trivial, trivial, trivial, trivial, trivial, trivial, trivial, trivial⟩
        | some encOut =>
          simp only [henc] at h
          cases hoaep : encryptRSA inp.oaep rsaKey aesKey with
          | none =>
            simp only [runTick, message_selected, hfRSA, hfKEM, hkey, henc, hoaep]
            exact ⟨trivial, trivial, trivial, trivial, trivial, trivial, trivial, trivial⟩
          | some rsaCt =>
            simp only [hoaep] at h
            cases hencaps : encryptMLKEM inp.encaps kemKey aesKey with
            | none =>
              simp only [runTick, message_selected, hfRSA, hfKEM, hkey, henc, hoaep, hencaps]
              exact ⟨trivial, trivial, trivial, trivial, trivial, trivial, trivial, trivial⟩
            | some kemOut =>
              simp only [hencaps] at h
              simp at h

/-- A successful tick yields witnesses for every intermediate step. -/
lemma tickOk_true_spec (inp : TickInputs) (h : tickOk inp = true) :
    ∃ (rsaKey : RSAPublicKey) (rsaBytes kemKey kemBytes aesKey : List ℕ)
      (encOut : List ℕ × List ℕ) (rsaCt kemCt sharedSecret : List ℕ),
      fetchPublicKey inp.parsePKIX inp.rsaHttp = .ok (rsaKey, rsaBytes) ∧
      fetchMLKEMPublicKey inp.unmarshalKEM inp.mlkemHttp = .ok (kemKey, kemBytes) ∧
      inp.randAESKey = some aesKey ∧
      encryptAES inp.aesCipher inp.randIV tickMessage aesKey = some encOut ∧
      encryptRSA inp.oaep rsaKey aesKey = some rsaCt ∧
      encryptMLKEM inp.encaps kemKey aesKey = some (kemCt, sharedSecret) := by
  rw [tickOk] at h
  cases hfRSA : fetchPublicKey inp.parsePKIX inp.rsaHttp with
  | error e => simp only [hfRSA] at h; simp at h
  | ok v =>
    obtain ⟨rsaKey, rsaBytes⟩ := v
    simp only [hfRSA] at h
    cases hfKEM : fetchMLKEMPublicKey inp.unmarshalKEM inp.mlkemHttp with
    | error e => simp only [hfKEM] at h; simp at h
    | ok w =>
      obtain ⟨kemKey, kemBytes⟩ := w
      simp only [hfKEM] at h
      cases hkey : inp.randAESKey with
      | none => simp only [hkey] at h; simp at h
      | some aesKey =>
        simp only [hkey] at h
        cases henc : encryptAES inp.aesCipher inp.randIV tickMessage aesKey with
        | none => simp only [henc] at h; simp at h
        | some encOut =>
          simp only [henc] at h
          cases hoaep : encryptRSA inp.oaep rsaKey aesKey with
          | none => simp only [hoaep] at h; simp at h
          | some rsaCt =>
            simp only [hoaep] at h
            cases hencaps : encryptMLKEM inp.encaps kemKey aesKey with
            | none => simp only [hencaps] at h; simp at h
            | some kemOut =>
              exact ⟨rsaKey, rsaBytes, kemKey, kemBytes, aesKey, encOut, rsaCt,
                kemOut.1, kemOut.2, rfl, rfl, rfl, henc, hoaep, by rw [hencaps]⟩

/-- Field values of `recordSuccess`. -/
lemma recordSuccess_fields (s : ClientState) (inp : TickInputs)
    (rsaBytes kemBytes rsaCt kemCt : List ℕ) :
    (recordSuccess s inp rsaBytes kemBytes rsaCt kemCt).operationCount = s.operationCount + 1 ∧
    (recordSuccess s inp rsaBytes kemBytes rsaCt kemCt).rsaTotalDuration =
      s.rsaTotalDuration + inp.rsaDur ∧
    (recordSuccess s inp rsaBytes kemBytes rsaCt kemCt).mlkemTotalDuration =
      s.mlkemTotalDuration + inp.mlkemDur ∧
    (recordSuccess s inp rsaBytes kemBytes rsaCt kemCt).rsaEncryptionDurationAvg =
      (s.rsaTotalDuration + inp.rsaDur) / ((s.operationCount + 1 : ℕ) : ℚ) ∧
    (recordSuccess s inp rsaBytes kemBytes rsaCt kemCt).mlkemEncapsulationDurationAvg =
      (s.mlkemTotalDuration + inp.mlkemDur) / ((s.operationCount + 1 : ℕ) : ℚ) ∧
    (recordSuccess s inp rsaBytes kemBytes rsaCt kemCt).encryptionDurationRatio =
      (if inp.rsaDur > 0 then inp.mlkemDur / inp.rsaDur else s.encryptionDurationRatio) ∧
    (recordSuccess s inp rsaBytes kemBytes rsaCt kemCt).encryptedKeySizeRatio =
      (if rsaCt.length > 0 then (kemCt.length : ℚ) / (rsaCt.length : ℚ)
       else s.encryptedKeySizeRatio) ∧
    (recordSuccess s inp rsaBytes kemBytes rsaCt kemCt).publicKeySizeRatio =
      (if rsaBytes.length > 0 then (kemBytes.length : ℚ) / (rsaBytes.length : ℚ)
       else s.publicKeySizeRatio) :=
  ⟨rfl, rfl, rfl, rfl, rfl, rfl, rfl, rfl⟩

/-- The cumulative fields and averages written by a successful tick. -/
lemma runTick_ok_fields (s : ClientState) (inp : TickInputs) (h : tickOk inp = true) :
    (runTick s inp).operationCount = s.operationCount + 1 ∧
    (runTick s inp).rsaTotalDuration = s.rsaTotalDuration + inp.rsaDur ∧
    (runTick s inp).mlkemTotalDuration = s.mlkemTotalDuration + inp.mlkemDur ∧
    (runTick s inp).rsaEncryptionDurationAvg =
      (s.rsaTotalDuration + inp.rsaDur) / ((s.operationCount + 1 : ℕ) : ℚ) ∧
    (runTick s inp).mlkemEncapsulationDurationAvg =
      (s.mlkemTotalDuration + inp.mlkemDur) / ((s.operationCount + 1 : ℕ) : ℚ) := by
  obtain ⟨rsaKey, rsaBytes, kemKey, kemBytes, aesKey, encOut, rsaCt, kemCt, ss,
    h1, h2, h3, h4, h5, h6⟩ := tickOk_true_spec inp h
  rw [runTick_ok_spec s inp rsaKey rsaBytes kemKey kemBytes aesKey encOut rsaCt kemCt ss
    h1 h2 h3 h4 h5 h6]
  exact ⟨rfl, rfl, rfl, rfl, rfl⟩

/-- Unfolding one step of the loop. -/
lemma runTicks_cons (s : ClientState) (i : TickInputs) (l : List TickInputs) :
    runTicks s (i :: l) = runTicks (runTick s i) l := rfl

/-- Over any run, the operation count advances by the number of successful
ticks and each cumulative duration by the sum of the corresponding measured
durations of the successful ticks. -/
lemma runTicks_counts (l : List TickInputs) : ∀ s : ClientState,
    (runTicks s l).operationCount =
      s.operationCount + (l.filter fun i => tickOk i).length ∧
    (runTicks s l).rsaTotalDuration =
      s.rsaTotalDuration + ((l.filter fun i => tickOk i).map fun i => i.rsaDur).sum ∧
    (runTicks s l).mlkemTotalDuration =
      s.mlkemTotalDuration + ((l.filter fun i => tickOk i).map fun i => i.mlkemDur).sum := by
  induction l with
  | nil => intro s; simp [runTicks]
  | cons i rest ih =>
    intro s
    rw [runTicks_cons]
    obtain ⟨ihOp, ihRsa, ihKem⟩ := ih (runTick s i)
    cases hok : tickOk i with
    | true =>
      obtain ⟨hOp, hRsa, hKem, _, _⟩ := runTick_ok_fields s i hok
      refine ⟨?_, ?_, ?_⟩
      · rw [ihOp, hOp, List.filter_cons_of_pos (by simp [hok])]
        simp only [List.length_cons]
        omega
      · rw [ihRsa, hRsa, List.filter_cons_of_pos (by simp [hok])]
        simp only [List.map_cons, List.sum_cons]
        ring
      · rw [ihKem, hKem, List.filter_cons_of_pos (by simp [hok])]
        simp only [List.map_cons, List.sum_cons]
        ring
    | false =>
      obtain ⟨hOp, hRsa, hKem, _, _, _, _, _⟩ := runTick_fail_frame s i hok
      refine ⟨?_, ?_, ?_⟩
      · rw [ihOp, hOp, List.filter_cons_of_neg (by simp [hok])]
      · rw [ihRsa, hRsa, List.filter_cons_of_neg (by simp [hok])]
      · rw [ihKem, hKem, List.filter_cons_of_neg (by simp [hok])]

/-- A successful tick re-establishes the invariant that each average gauge
equals the cumulative duration divided by the operation count. -/
lemma runTick_ok_avg_inv (s : ClientState) (inp : TickInputs) (h : tickOk inp = true) :
    (runTick s inp).rsaEncryptionDurationAvg =
      (runTick s inp).rsaTotalDuration / ((runTick s inp).operationCount : ℚ) ∧
    (runTick s inp).mlkemEncapsulationDurationAvg =
      (runTick s inp).mlkemTotalDuration / ((runTick s inp).operationCount : ℚ) := by
  obtain ⟨hOp, hRsa, hKem, hAvgR, hAvgK⟩ := runTick_ok_fields s inp h
  rw [hOp, hRsa, hKem, hAvgR, hAvgK]
  exact ⟨rfl, rfl⟩

/-- Any tick preserves the average-gauge invariant. -/
lemma runTick_preserves_avg_inv (s : ClientState) (inp : TickInputs)
    (hs : s.rsaEncryptionDurationAvg = s.rsaTotalDuration / (s.operationCount : ℚ) ∧
      s.mlkemEncapsulationDurationAvg = s.mlkemTotalDuration / (s.operationCount : ℚ)) :
    (runTick s inp).rsaEncryptionDurationAvg =
      (runTick s inp).rsaTotalDuration / ((runTick s inp).operationCount : ℚ) ∧
    (runTick s inp).mlkemEncapsulationDurationAvg =
      (runTick s inp).mlkemTotalDuration / ((runTick s inp).operationCount : ℚ) := by
  cases hok : tickOk inp with
  | true => exact runTick_ok_avg_inv s inp hok
  | false =>
    obtain ⟨hOp, hRsa, hKem, hAvgR, hAvgK, _, _, _⟩ := runTick_fail_frame s inp hok
    rw [hOp, hRsa, hKem, hAvgR, hAvgK]
    exact hs

/-- The loop preserves the average-gauge invariant. -/
lemma runTicks_preserves_avg_inv (l : List TickInputs) : ∀ s : ClientState,
    (s.rsaEncryptionDurationAvg = s.rsaTotalDuration / (s.operationCount : ℚ) ∧
      s.mlkemEncapsulationDurationAvg = s.mlkemTotalDuration / (s.operationCount : ℚ)) →
    ((runTicks s l).rsaEncryptionDurationAvg =
      (runTicks s l).rsaTotalDuration / ((runTicks s l).operationCount : ℚ) ∧
    (runTicks s l).mlkemEncapsulationDurationAvg =
      (runTicks s l).mlkemTotalDuration / ((runTicks s l).operationCount : ℚ)) := by
  induction l with
  | nil => intro s hs; exact hs
  | cons i rest ih =>
    intro s hs
    rw [runTicks_cons]
    exact ih (runTick s i) (runTick_preserves_avg_inv s i hs)

/-- After a run containing at least one successful tick, each average gauge
equals the cumulative duration divided by the operation count. -/
lemma runTicks_avg_inv (l : List TickInputs)
    (hne : (l.filter fun i => tickOk i) ≠ []) : ∀ s : ClientState,
    (runTicks s l).rsaEncryptionDurationAvg =
      (runTicks s l).rsaTotalDuration / ((runTicks s l).operationCount : ℚ) ∧
    (runTicks s l).mlkemEncapsulationDurationAvg =
      (runTicks s l).mlkemTotalDuration / ((runTicks s l).operationCount : ℚ) := by
  induction l with
  | nil => simp at hne
  | cons i rest ih =>
    intro s
    rw [runTicks_cons]
    cases hok : tickOk i with
    | true =>
      exact runTicks_preserves_avg_inv rest (runTick s i) (runTick_ok_avg_inv s i hok)
    | false =>
      have hne2 : (rest.filter fun i => tickOk i) ≠ [] := by
        rwa [List.filter_cons_of_neg (by simp [hok])] at hne
      exact ih hne2 (runTick s i)

/-- Summing a per-tick duration that is constant over a list. -/
lemma sum_map_const (l : List TickInputs) (f : TickInputs → ℚ) (d : ℚ)
    (h : ∀ i ∈ l, f i = d) : (l.map f).sum = (l.length : ℚ) * d := by
  induction l with
  | nil => simp
  | cons i rest ih =>
    simp only [List.map_cons, List.sum_cons, List.length_cons, h i (by simp)]
    rw [ih (fun x hx => h x (by simp [hx]))]
    push_cast
    ring

/-! ## Claim theorems -/

/-- Claim C6: the ML-KEM wrap ignores the symmetric key it is asked to
wrap — with the same randomness stream (the same `encaps` draw), any two
symmetric-key payloads produce the identical encapsulated ciphertext and
shared secret, so the artifact carries no dependence on the key. -/
theorem c6_mlkem_wrap_ignores_key (encaps : Kyber768PublicKey → Option (List ℕ × List ℕ))
    (publicKey : Kyber768PublicKey) (data1 data2 : List ℕ) :
    encryptMLKEM encaps publicKey data1 = encryptMLKEM encaps publicKey data2 := rfl

/-- Claim C7: for every message, 32-byte key and 16-byte IV, CBC-decrypting
the ciphertext produced by `encryptAES` with the same key and IV and
stripping the padding recovers exactly the message (for any block
permutation `enc key` with inverse `dec key` on 16-byte blocks). -/
theorem c7_aes_roundtrip (enc dec : List ℕ → List ℕ → List ℕ) (key iv m : List ℕ)
    (hkey : key.length = 32) (hiv : iv.length = 16)
    (hlen : ∀ b, b.length = 16 → (enc key b).length = 16)
    (hinv : ∀ b, b.length = 16 → dec key (enc key b) = b) :
    encryptAES enc (some iv) m key =
      some ((cbcEncryptBlocks (enc key) iv (toBlocks16 (pad16 m))).flatten, iv) ∧
    decryptAES dec ((cbcEncryptBlocks (enc key) iv (toBlocks16 (pad16 m))).flatten) iv key =
      some m := by
  constructor
  · simp [encryptAES, hkey]
  · have hblocks : ∀ b ∈ toBlocks16 (pad16 m), b.length = 16 :=
      toBlocks16_block_length _ (pad16_length_mod m)
    have hcb := cbcEncryptBlocks_blocks (enc key) hlen (toBlocks16 (pad16 m)) iv hiv hblocks
    rw [decryptAES, toBlocks16_flatten _ hcb.1,
      cbcDecryptBlocks_cbcEncryptBlocks (enc key) (dec key) hlen hinv _ iv hiv hblocks,
      flatten_toBlocks16, unpad16_pad16]

/-- Claim C7 witness: round trip through the identity block permutation on
the message `[1, 2, 3]`. -/
theorem c7_aes_roundtrip_witness :
    encryptAES (fun _ b => b) (some (List.replicate 16 0)) [1, 2, 3] (List.replicate 32 0) =
      some ((cbcEncryptBlocks ((fun (_ b : List ℕ) => b) (List.replicate 32 0))
        (List.replicate 16 0) (toBlocks16 (pad16 [1, 2, 3]))).flatten, List.replicate 16 0) ∧
    decryptAES (fun _ b => b)
      ((cbcEncryptBlocks ((fun (_ b : List ℕ) => b) (List.replicate 32 0))
        (List.replicate 16 0) (toBlocks16 (pad16 [1, 2, 3]))).flatten)
      (List.replicate 16 0) (List.replicate 32 0) = some [1, 2, 3] :=
  c7_aes_roundtrip (fun _ b => b) (fun _ b => b) (List.replicate 32 0) (List.replicate 16 0)
    [1, 2, 3] (by decide) (by decide) (fun b hb => hb) (fun b hb => rfl)

/-- Claim C10: the padding always appends between 1 and 16 bytes, each equal
to the padding length; the ciphertext length is `16 * (len(m) / 16 + 1)`, a
positive multiple of the block size strictly greater than the message
length (a full extra block when the length is already a multiple of 16). -/
theorem c10_padding_and_length (enc : List ℕ → List ℕ → List ℕ) (key iv m : List ℕ)
    (hkey : key.length = 32) (hiv : iv.length = 16)
    (hlen : ∀ b, b.length = 16 → (enc key b).length = 16) :
    pad16 m = m ++ List.replicate (16 - m.length % 16) (16 - m.length % 16) ∧
    1 ≤ 16 - m.length % 16 ∧ 16 - m.length % 16 ≤ 16 ∧
    encryptAES enc (some iv) m key =
      some ((cbcEncryptBlocks (enc key) iv (toBlocks16 (pad16 m))).flatten, iv) ∧
    ((cbcEncryptBlocks (enc key) iv (toBlocks16 (pad16 m))).flatten).length =
      16 * (m.length / 16 + 1) ∧
    m.length < ((cbcEncryptBlocks (enc key) iv (toBlocks16 (pad16 m))).flatten).length := by
  have hblocks : ∀ b ∈ toBlocks16 (pad16 m), b.length = 16 :=
    toBlocks16_block_length _ (pad16_length_mod m)
  have hcb := cbcEncryptBlocks_blocks (enc key) hlen (toBlocks16 (pad16 m)) iv hiv hblocks
  have hflat : ((cbcEncryptBlocks (enc key) iv (toBlocks16 (pad16 m))).flatten).length =
      16 * (toBlocks16 (pad16 m)).length := by
    rw [flatten_length_of_blocks _ hcb.1, hcb.2]
  have hcount : 16 * (toBlocks16 (pad16 m)).length = (pad16 m).length := by
    have h2 := flatten_length_of_blocks _ hblocks
    rw [flatten_toBlocks16 (pad16 m)] at h2
    omega
  have hpadlen := pad16_length m
  refine ⟨pad16_eq m, by omega, by omega, by simp [encryptAES, hkey], ?_, ?_⟩
  · rw [hflat]
    omega
  · rw [hflat]
    omega

/-- Claim C10 witness: the 3-byte message gains 13 bytes of padding and
encrypts to one 16-byte block. -/
theorem c10_padding_and_length_witness :
    pad16 [1, 2, 3] = [1, 2, 3] ++ List.replicate (16 - ([1, 2, 3] : List ℕ).length % 16)
      (16 - ([1, 2, 3] : List ℕ).length % 16) ∧
    1 ≤ 16 - ([1, 2, 3] : List ℕ).length % 16 ∧ 16 - ([1, 2, 3] : List ℕ).length % 16 ≤ 16 ∧
    encryptAES (fun _ b => b) (some (List.replicate 16 0)) [1, 2, 3] (List.replicate 32 0) =
      some ((cbcEncryptBlocks ((fun (_ b : List ℕ) => b) (List.replicate 32 0))
        (List.replicate 16 0) (toBlocks16 (pad16 [1, 2, 3]))).flatten, List.replicate 16 0) ∧
    ((cbcEncryptBlocks ((fun (_ b : List ℕ) => b) (List.replicate 32 0)) (List.replicate 16 0)
      (toBlocks16 (pad16 [1, 2, 3]))).flatten).length =
      16 * (([1, 2, 3] : List ℕ).length / 16 + 1) ∧
    ([1, 2, 3] : List ℕ).length <
      ((cbcEncryptBlocks ((fun (_ b : List ℕ) => b) (List.replicate 32 0)) (List.replicate 16 0)
        (toBlocks16 (pad16 [1, 2, 3]))).flatten).length :=
  c10_padding_and_length (fun _ b => b) (List.replicate 32 0) (List.replicate 16 0) [1, 2, 3]
    (by decide) (by decide) (fun b hb => hb)

/-- Claim C9: every successful tick adds exactly one to the operation count
and exactly one measured duration per scheme to the cumulative durations;
a failed tick adds nothing for either scheme. -/
theorem c9_per_tick_statistics (s : ClientState) (inp : TickInputs) :
    (runTick s inp).operationCount =
      s.operationCount + (if tickOk inp then 1 else 0) ∧
    (runTick s inp).rsaTotalDuration =
      s.rsaTotalDuration + (if tickOk inp then inp.rsaDur else 0) ∧
    (runTick s inp).mlkemTotalDuration =
      s.mlkemTotalDuration + (if tickOk inp then inp.mlkemDur else 0) := by
  cases hok : tickOk inp with
  | true =>
    obtain ⟨hOp, hRsa, hKem, _, _⟩ := runTick_ok_fields s inp hok
    simp [hok, hOp, hRsa, hKem]
  | false =>
    obtain ⟨hOp, hRsa, hKem, _, _, _, _, _⟩ := runTick_fail_frame s inp hok
    simp [hok, hOp, hRsa, hKem]

/-- Claim C1 (counterexample): a tick that fails at the ML-KEM fetch has
already recorded the RSA public-key size gauge, so a failing tick does not
leave every gauge unchanged. -/
theorem c1_partial_gauge_counterexample :
    tickOk kemFetchFailTick = false ∧
    (runTick initialState kemFetchFailTick).rsaPublicKeySize ≠
      initialState.rsaPublicKeySize := by
  constructor
  · with_unfolding_all decide
  · with_unfolding_all decide

/-- Claim C1 (amended): a tick that fails at any step leaves the cumulative
statistics (operation count and per-scheme cumulative durations), the two
average gauges and the three ratio gauges exactly unchanged; gauges
recording steps completed before the failure may be updated. -/
theorem c1_failed_tick_frame (s : ClientState) (inp : TickInputs) (h : tickOk inp = false) :
    (runTick s inp).operationCount = s.operationCount ∧
    (runTick s inp).rsaTotalDuration = s.rsaTotalDuration ∧
    (runTick s inp).mlkemTotalDuration = s.mlkemTotalDuration ∧
    (runTick s inp).rsaEncryptionDurationAvg = s.rsaEncryptionDurationAvg ∧
    (runTick s inp).mlkemEncapsulationDurationAvg = s.mlkemEncapsulationDurationAvg ∧
    (runTick s inp).encryptionDurationRatio = s.encryptionDurationRatio ∧
    (runTick s inp).encryptedKeySizeRatio = s.encryptedKeySizeRatio ∧
    (runTick s inp).publicKeySizeRatio = s.publicKeySizeRatio :=
  runTick_fail_frame s inp h

/-- Claim C1 witness: the amended frame property at the concrete tick that
fails at the ML-KEM fetch. -/
theorem c1_failed_tick_frame_witness :
    (runTick initialState kemFetchFailTick).operationCount =
      initialState.operationCount ∧
    (runTick initialState kemFetchFailTick).rsaTotalDuration =
      initialState.rsaTotalDuration ∧
    (runTick initialState kemFetchFailTick).mlkemTotalDuration =
      initialState.mlkemTotalDuration ∧
    (runTick initialState kemFetchFailTick).rsaEncryptionDurationAvg =
      initialState.rsaEncryptionDurationAvg ∧
    (runTick initialState kemFetchFailTick).mlkemEncapsulationDurationAvg =
      initialState.mlkemEncapsulationDurationAvg ∧
    (runTick initialState kemFetchFailTick).encryptionDurationRatio =
      initialState.encryptionDurationRatio ∧
    (runTick initialState kemFetchFailTick).encryptedKeySizeRatio =
      initialState.encryptedKeySizeRatio ∧
    (runTick initialState kemFetchFailTick).publicKeySizeRatio =
      initialState.publicKeySizeRatio :=
  c1_failed_tick_frame initialState kemFetchFailTick (by with_unfolding_all decide)

set_option maxRecDepth 4000 in
/-- Claim C2 (counterexample): the RSA server declares `key_size = 2048`
for a 294-byte marshalled key (the DER length of a 2048-bit PKIX key), so
the declared key size is not the byte length of the decoded public key. -/
theorem c2_rsa_key_size_counterexample :
    rsaGetPublicKeyHandler ("GET".data) (some (List.replicate 294 0)) =
      .ok { publicKey := base64Encode (List.replicate 294 0), keySize := 2048 } ∧
    base64Decode (base64Encode (List.replicate 294 0)) = some (List.replicate 294 0) ∧
    ((List.replicate 294 (0 : ℕ)).length : ℤ) = 294 ∧ (2048 : ℤ) ≠ 294 := by
  refine ⟨by simp [rsaGetPublicKeyHandler], ?_, by simp, by decide⟩
  exact base64Decode_base64Encode _ (by simp)

/-- Claim C2 (amended): the ML-KEM server's declared `key_size` equals the
byte length of the base64-decoded `public_key`; the RSA server instead
declares the constant 2048 (its modulus bit-length) regardless of the
marshalled key's byte length. -/
theorem c2_key_size_amended (b : List ℕ) (hb : ∀ x ∈ b, x < 256) :
    mlkemGetPublicKeyHandler ("GET".data) (some b) =
      .ok { publicKey := base64Encode b, algorithm := "ML-KEM-768 (Kyber-768)".data,
            keySize := (b.length : ℤ) } ∧
    base64Decode (base64Encode b) = some b ∧
    rsaGetPublicKeyHandler ("GET".data) (some b) =
      .ok { publicKey := base64Encode b, keySize := 2048 } := by
  refine ⟨by simp [mlkemGetPublicKeyHandler], ?_, by simp [rsaGetPublicKeyHandler]⟩
  exact base64Decode_base64Encode b hb

/-- Claim C2 witness: the amended statement at the 3-byte key material
`[1, 2, 3]`. -/
theorem c2_key_size_amended_witness :
    mlkemGetPublicKeyHandler ("GET".data) (some [1, 2, 3]) =
      .ok { publicKey := base64Encode [1, 2, 3],
            algorithm := "ML-KEM-768 (Kyber-768)".data,
            keySize := (([1, 2, 3] : List ℕ).length : ℤ) } ∧
    base64Decode (base64Encode [1, 2, 3]) = some [1, 2, 3] ∧
    rsaGetPublicKeyHandler ("GET".data) (some [1, 2, 3]) =
      .ok { publicKey := base64Encode [1, 2, 3], keySize := 2048 } :=
  c2_key_size_amended [1, 2, 3] (by decide)

/-- Claim C3: a public-key payload with malformed base64 makes the RSA
fetch return the base64 decode error, the tick is abandoned, and the
running statistics (both cumulative durations and the operation count)
are exactly unchanged. -/
theorem c3_bad_base64_aborts (s : ClientState) (inp : TickInputs)
    (resp : RSAHttpResponse) (pkr : ClientRSAKeyResponse)
    (hresp : inp.rsaHttp = some resp) (hstatus : resp.status = 200)
    (hbody : resp.body = some pkr) (hb64 : base64Decode pkr.publicKey = none) :
    fetchPublicKey inp.parsePKIX inp.rsaHttp = .error .base64DecodeFailed ∧
    (runTick s inp).operationCount = s.operationCount ∧
    (runTick s inp).rsaTotalDuration = s.rsaTotalDuration ∧
    (runTick s inp).mlkemTotalDuration = s.mlkemTotalDuration := by
  have hfetch : fetchPublicKey inp.parsePKIX inp.rsaHttp = .error .base64DecodeFailed := by
    simp only [fetchPublicKey, hresp, hstatus, hbody, hb64]
    simp
  have hok : tickOk inp = false := by
    simp only [tickOk, hfetch]
  obtain ⟨hOp, hRsa, hKem, _, _, _, _, _⟩ := runTick_fail_frame s inp hok
  exact ⟨hfetch, hOp, hRsa, hKem⟩

/-- Claim C3 witness: the malformed payload `"!!!!"` aborts the tick from
the initial state without touching the running statistics. -/
theorem c3_bad_base64_aborts_witness :
    fetchPublicKey badBase64Tick.parsePKIX badBase64Tick.rsaHttp =
      .error .base64DecodeFailed ∧
    (runTick initialState badBase64Tick).operationCount = initialState.operationCount ∧
    (runTick initialState badBase64Tick).rsaTotalDuration = initialState.rsaTotalDuration ∧
    (runTick initialState badBase64Tick).mlkemTotalDuration =
      initialState.mlkemTotalDuration :=
  c3_bad_base64_aborts initialState badBase64Tick
    { status := 200, body := some { publicKey := "!!!!".data, keySize := 0 } }
    { publicKey := "!!!!".data, keySize := 0 } rfl rfl rfl (by decide)

/-- Claim C4: on a successful tick whose classical-side denominator is zero
— RSA wrap duration measured as 0, empty RSA-wrapped key, or empty RSA
public-key material — the corresponding ratio gauge is not written and
retains its previous value. -/
theorem c4_zero_denominator_guard (s : ClientState) (inp : TickInputs)
    (rsaKey : RSAPublicKey) (rsaBytes kemKey kemBytes aesKey : List ℕ)
    (encOut : List ℕ × List ℕ) (rsaCt kemCt sharedSecret : List ℕ)
    (h1 : fetchPublicKey inp.parsePKIX inp.rsaHttp = .ok (rsaKey, rsaBytes))
    (h2 : fetchMLKEMPublicKey inp.unmarshalKEM inp.mlkemHttp = .ok (kemKey, kemBytes))
    (h3 : inp.randAESKey = some aesKey)
    (h4 : encryptAES inp.aesCipher inp.randIV tickMessage aesKey = some encOut)
    (h5 : encryptRSA inp.oaep rsaKey aesKey = some rsaCt)
    (h6 : encryptMLKEM inp.encaps kemKey aesKey = some (kemCt, sharedSecret)) :
    (inp.rsaDur = 0 →
      (runTick s inp).encryptionDurationRatio = s.encryptionDurationRatio) ∧
    (rsaCt.length = 0 →
      (runTick s inp).encryptedKeySizeRatio = s.encryptedKeySizeRatio) ∧
    (rsaBytes.length = 0 →
      (runTick s inp).publicKeySizeRatio = s.publicKeySizeRatio) := by
  rw [runTick_ok_spec s inp rsaKey rsaBytes kemKey kemBytes aesKey encOut rsaCt kemCt
    sharedSecret h1 h2 h3 h4 h5 h6]
  obtain ⟨_, _, _, _, _, hDur, hKeyR, hPubR⟩ :=
    recordSuccess_fields s inp rsaBytes kemBytes rsaCt kemCt
  refine ⟨fun hz => ?_, fun hz => ?_, fun hz => ?_⟩
  · rw [hDur, if_neg (by rw [hz]; exact lt_irrefl 0)]
  · rw [hKeyR, if_neg (by omega)]
  · rw [hPubR, if_neg (by omega)]

/-- Claim C4 witness: the zero-denominator tick leaves all three ratio
gauges at their initial values. -/
theorem c4_zero_denominator_guard_witness :
    (runTick initialState zeroDenomTick).encryptionDurationRatio =
      initialState.encryptionDurationRatio ∧
    (runTick initialState zeroDenomTick).encryptedKeySizeRatio =
      initialState.encryptedKeySizeRatio ∧
    (runTick initialState zeroDenomTick).publicKeySizeRatio =
      initialState.publicKeySizeRatio := by
  have h := c4_zero_denominator_guard initialState zeroDenomTick
    { n := 15, e := 3 } [] [4, 5] [4, 5] (List.replicate 32 7)
    ((cbcEncryptBlocks (zeroDenomTick.aesCipher (List.replicate 32 7)) (List.replicate 16 9)
        (toBlocks16 (pad16 tickMessage))).flatten, List.replicate 16 9)
    [] (List.replicate 1088 2) (List.replicate 32 3)
    rfl rfl rfl rfl rfl rfl
  exact ⟨h.1 rfl, h.2.1 rfl, h.2.2 rfl⟩

/-- Claim C5: each ratio is the post-quantum value divided by the classical
value of the same tick; in particular a 0.100 s RSA wrap with a 0.002 s
ML-KEM wrap gives a duration ratio of exactly 1/50 = 0.02, and a 270-byte
RSA artifact with a 1088-byte ML-KEM artifact gives a size ratio of
1088/270. -/
theorem c5_ratio_computation (s : ClientState) (inp : TickInputs)
    (rsaKey : RSAPublicKey) (rsaBytes kemKey kemBytes aesKey : List ℕ)
    (encOut : List ℕ × List ℕ) (rsaCt kemCt sharedSecret : List ℕ)
    (h1 : fetchPublicKey inp.parsePKIX inp.rsaHttp = .ok (rsaKey, rsaBytes))
    (h2 : fetchMLKEMPublicKey inp.unmarshalKEM inp.mlkemHttp = .ok (kemKey, kemBytes))
    (h3 : inp.randAESKey = some aesKey)
    (h4 : encryptAES inp.aesCipher inp.randIV tickMessage aesKey = some encOut)
    (h5 : encryptRSA inp.oaep rsaKey aesKey = some rsaCt)
    (h6 : encryptMLKEM inp.encaps kemKey aesKey = some (kemCt, sharedSecret)) :
    (0 < inp.rsaDur →
      (runTick s inp).encryptionDurationRatio = inp.mlkemDur / inp.rsaDur) ∧
    (0 < rsaCt.length →
      (runTick s inp).encryptedKeySizeRatio = (kemCt.length : ℚ) / (rsaCt.length : ℚ)) ∧
    (0 < rsaBytes.length →
      (runTick s inp).publicKeySizeRatio = (kemBytes.length : ℚ) / (rsaBytes.length : ℚ)) ∧
    (inp.rsaDur = 1 / 10 → inp.mlkemDur = 1 / 500 →
      (runTick s inp).encryptionDurationRatio = 1 / 50) ∧
    (rsaCt.length = 270 → kemCt.length = 1088 →
      (runTick s inp).encryptedKeySizeRatio = 1088 / 270) := by
  rw [runTick_ok_spec s inp rsaKey rsaBytes kemKey kemBytes aesKey encOut rsaCt kemCt
    sharedSecret h1 h2 h3 h4 h5 h6]
  obtain ⟨_, _, _, _, _, hDur, hKeyR, hPubR⟩ :=
    recordSuccess_fields s inp rsaBytes kemBytes rsaCt kemCt
  refine ⟨fun h => by rw [hDur, if_pos h], fun h => by rw [hKeyR, if_pos h],
    fun h => by rw [hPubR, if_pos h], fun hd hm => ?_, fun hr hk => ?_⟩
  · rw [hDur, if_pos (by rw [hd]; norm_num), hd, hm]
    norm_num
  · rw [hKeyR, if_pos (by omega), hr, hk]
    norm_num

/-- Claim C5 witness: the successful sample tick with a 0.1 s RSA wrap,
a 0.002 s ML-KEM wrap, a 270-byte RSA artifact and a 1088-byte ML-KEM
artifact records a duration ratio of 1/50 and a size ratio of 1088/270. -/
theorem c5_ratio_computation_witness :
    (runTick initialState sampleOkTick).encryptionDurationRatio = 1 / 50 ∧
    (runTick initialState sampleOkTick).encryptedKeySizeRatio = 1088 / 270 := by
  have h := c5_ratio_computation initialState sampleOkTick
    { n := 15, e := 3 } [1, 2, 3, 4, 5] [4, 5] [4, 5] (List.replicate 32 7)
    ((cbcEncryptBlocks (sampleOkTick.aesCipher (List.replicate 32 7)) (List.replicate 16 9)
        (toBlocks16 (pad16 tickMessage))).flatten, List.replicate 16 9)
    (List.replicate 270 1) (List.replicate 1088 2) (List.replicate 32 3)
    rfl rfl rfl rfl rfl rfl
  exact ⟨h.2.2.2.1 rfl rfl,
    h.2.2.2.2 (by rw [List.length_replicate]) (by rw [List.length_replicate])⟩

/-- Claim C8: after a run whose successful-tick count is N, each per-scheme
running-average gauge equals that scheme's cumulative duration divided by
N; when every successful tick measured the same duration for a scheme, the
scheme's average equals that duration exactly. -/
theorem c8_running_average (l : List TickInputs)
    (hN : (l.filter fun i => tickOk i).length ≠ 0) :
    (runTicks initialState l).rsaEncryptionDurationAvg =
      (runTicks initialState l).rsaTotalDuration /
        (((l.filter fun i => tickOk i).length : ℕ) : ℚ) ∧
    (runTicks initialState l).mlkemEncapsulationDurationAvg =
      (runTicks initialState l).mlkemTotalDuration /
        (((l.filter fun i => tickOk i).length : ℕ) : ℚ) ∧
    (∀ d : ℚ, (∀ i ∈ l, tickOk i = true → i.rsaDur = d) →
      (runTicks initialState l).rsaEncryptionDurationAvg = d) ∧
    (∀ d : ℚ, (∀ i ∈ l, tickOk i = true → i.mlkemDur = d) →
      (runTicks initialState l).mlkemEncapsulationDurationAvg = d) := by
  have hne : (l.filter fun i => tickOk i) ≠ [] := by
    intro hcon
    rw [hcon] at hN
    simp at hN
  obtain ⟨hAvgR, hAvgK⟩ := runTicks_avg_inv l hne initialState
  obtain ⟨hOp, hRsa, hKem⟩ := runTicks_counts l initialState
  have hOp0 : (runTicks initialState l).operationCount =
      (l.filter fun i => tickOk i).length := by
    rw [hOp]
    simp [initialState]
  have hRsa0 : (runTicks initialState l).rsaTotalDuration =
      ((l.filter fun i => tickOk i).map fun i => i.rsaDur).sum := by
    rw [hRsa]
    simp [initialState]
  have hKem0 : (runTicks initialState l).mlkemTotalDuration =
      ((l.filter fun i => tickOk i).map fun i => i.mlkemDur).sum := by
    rw [hKem]
    simp [initialState]
  have hcast : (((l.filter fun i => tickOk i).length : ℕ) : ℚ) ≠ 0 :=
    Nat.cast_ne_zero.mpr hN
  refine ⟨by rw [hAvgR, hOp0], by rw [hAvgK, hOp0], fun d hd => ?_, fun d hd => ?_⟩
  · have hsum : ((l.filter fun i => tickOk i).map fun i => i.rsaDur).sum =
        (((l.filter fun i => tickOk i).length : ℕ) : ℚ) * d := by
      refine sum_map_const _ _ d fun i hi => ?_
      rw [List.mem_filter] at hi
      exact hd i hi.1 hi.2
    rw [hAvgR, hOp0, hRsa0, hsum, mul_comm, mul_div_assoc, div_self hcast, mul_one]
  · have hsum : ((l.filter fun i => tickOk i).map fun i => i.mlkemDur).sum =
        (((l.filter fun i => tickOk i).length : ℕ) : ℚ) * d := by
      refine sum_map_const _ _ d fun i hi => ?_
      rw [List.mem_filter] at hi
      exact hd i hi.1 hi.2
    rw [hAvgK, hOp0, hKem0, hsum, mul_comm, mul_div_assoc, div_self hcast, mul_one]

/-- Claim C8 witness: one successful tick of 0.1 s RSA wrap and 0.002 s
ML-KEM wrap gives averages exactly 1/10 and 1/500. -/
theorem c8_running_average_witness :
    (runTicks initialState [sampleOkTick]).rsaEncryptionDurationAvg = 1 / 10 ∧
    (runTicks initialState [sampleOkTick]).mlkemEncapsulationDurationAvg = 1 / 500 := by
  have h := c8_running_average [sampleOkTick] (by with_unfolding_all decide)
  constructor
  · refine h.2.2.1 (1 / 10) fun i hi _ => ?_
    rw [List.mem_singleton] at hi
    rw [hi]
    rfl
  · refine h.2.2.2 (1 / 500) fun i hi _ => ?_
    rw [List.mem_singleton] at hi
    rw [hi]
    rfl
